import Mathlib

/-!
Verification development for the pdf_scrapper repository
(`capture_pdf.py`, `extract_with_template.py`).

The Python sources are shallowly embedded:
Python floats become rationals, pandas DataFrames become an explicit
column list plus rows (cells are `Option String`, `none` modelling NaN),
Python dicts become insertion-ordered association lists, and the external
PDF engine (PyMuPDF) is a parameter (a function from page and rectangle
to the raw text the engine would return).
-/

namespace PdfScrapper

/-! ### Text normalization
Both scripts normalize extracted text the same way
(`capture_pdf.py` lines 92-93, `extract_with_template.py` lines 30-31):
`raw.strip()` followed by `" ".join(txt.split())`.
`str.split()` with no arguments splits on runs of Unicode whitespace and
drops empty tokens; `str.strip()` trims leading/trailing whitespace.
-/

/-- Code points Python treats as whitespace for `str.split()` / `str.strip()`. -/
def pySpaceCodes : List Nat :=
  [9, 10, 11, 12, 13, 28, 29, 30, 31, 32, 133, 160, 5760,
   8192, 8193, 8194, 8195, 8196, 8197, 8198, 8199, 8200, 8201, 8202,
   8232, 8233, 8239, 8287, 12288]

/-- Python's whitespace test on a character. -/
def isPySpace (c : Char) : Bool := pySpaceCodes.contains c.toNat

/-- The ASCII space used by `" ".join(...)`. -/
def spaceChar : Char := Char.ofNat 32

/-- `str.strip()` on a character list: drop whitespace from both ends. -/
def pyStrip (l : List Char) : List Char :=
  ((l.dropWhile isPySpace).reverse.dropWhile isPySpace).reverse

/-- Tokenizer behind `str.split()`: scans the list, building the current
token in reverse in `acc`; whitespace flushes the token. -/
def wordsAcc : List Char → List Char → List (List Char)
  | [], acc => if acc.isEmpty then [] else [acc.reverse]
  | c :: cs, acc =>
    if isPySpace c then
      if acc.isEmpty then wordsAcc cs [] else acc.reverse :: wordsAcc cs []
    else wordsAcc cs (c :: acc)

/-- `str.split()` with no arguments: maximal runs of non-whitespace. -/
def pyWords (l : List Char) : List (List Char) := wordsAcc l []

/-- `" ".join(ws)`: interleave a single ASCII space between tokens. -/
def joinWords : List (List Char) → List Char
  | [] => []
  | [w] => w
  | w :: ws => w ++ spaceChar :: joinWords ws

/-- The normalization both scripts apply to extracted text:
`" ".join(raw.strip().split())`. -/
def normalizeChars (l : List Char) : List Char := joinWords (pyWords (pyStrip l))

/-- String-level normalization used on every extracted region text. -/
def pyNormalize (s : String) : String := (normalizeChars s.toList).asString

/-- `label.strip()` applied to console input in `on_select` (line 99). -/
def pyStripStr (s : String) : String := (pyStrip s.toList).asString

/-! ### Coordinate transform (`capture_pdf.py` lines 39, 87-88) -/

/-- `self.scale = dpi / 72` (line 39). -/
def scaleOf (dpi : ℚ) : ℚ := dpi / 72

/-- Pixel to PDF-point conversion, `x0 / self.scale` (lines 87-88). -/
def toPoint (v s : ℚ) : ℚ := v / s

/-- PDF-point to pixel conversion, multiplication by the scale. -/
def toPixel (p s : ℚ) : ℚ := p * s

/-! ### Rectangles and corner normalization (`capture_pdf.py` lines 78-79) -/

/-- A rectangle, four coordinates in a fixed coordinate space. -/
structure Rect where
  x0 : ℚ
  y0 : ℚ
  x1 : ℚ
  y1 : ℚ
deriving DecidableEq, Repr

/-- `x0, x1 = sorted([x0, x1]); y0, y1 = sorted([y0, y1])`:
sorting two values yields their min first and max second. -/
def normalizeCorners (ex ey rx ry : ℚ) : Rect :=
  { x0 := min ex rx, y0 := min ey ry, x1 := max ex rx, y1 := max ey ry }

/-! ### Facts about the tokenizer, for idempotence of normalization -/

theorem wordsAcc_good :
    ∀ (l acc : List Char), (∀ c ∈ acc, isPySpace c = false) →
      ∀ w ∈ wordsAcc l acc, w ≠ [] ∧ ∀ c ∈ w, isPySpace c = false := by
  intro l
  induction l with
  | nil =>
    intro acc hacc w hw
    by_cases he : acc.isEmpty
    · simp [wordsAcc, he] at hw
    · simp only [wordsAcc, he, if_neg, Bool.false_eq_true, ite_false, List.mem_singleton] at hw
      subst hw
      constructor
      · simp only [ne_eq, List.reverse_eq_nil_iff]
        intro h
        subst h
        simp at he
      · intro c hc
        exact hacc c (List.mem_reverse.mp hc)
  | cons c cs ih =>
    intro acc hacc w hw
    by_cases hsp : isPySpace c
    · by_cases he : acc.isEmpty
      · rw [wordsAcc, if_pos hsp, if_pos he] at hw
        exact ih [] (by simp) w hw
      · rw [wordsAcc, if_pos hsp, if_neg he] at hw
        rcases List.mem_cons.mp hw with h | h
        · subst h
          constructor
          · simp only [ne_eq, List.reverse_eq_nil_iff]
            intro h
            subst h
            simp at he
          · intro x hx
            exact hacc x (List.mem_reverse.mp hx)
        · exact ih [] (by simp) w h
    · rw [wordsAcc, if_neg hsp] at hw
      refine ih (c :: acc) ?_ w hw
      intro x hx
      rcases List.mem_cons.mp hx with h | h
      · subst h
        exact Bool.eq_false_iff.mpr hsp
      · exact hacc x h

theorem wordsAcc_nospace :
    ∀ (l acc : List Char), (∀ c ∈ l, isPySpace c = false) →
      wordsAcc l acc =
        if (acc.reverse ++ l).isEmpty then [] else [acc.reverse ++ l] := by
  intro l
  induction l with
  | nil =>
    intro acc _
    rcases acc with _ | ⟨a, as⟩
    · rfl
    · simp [wordsAcc, List.isEmpty_iff]
  | cons c cs ih =>
    intro acc h
    have hc : isPySpace c = false := h c (List.mem_cons_self c cs)
    rw [wordsAcc, if_neg (by simp [hc])]
    rw [ih (c :: acc) (fun x hx => h x (List.mem_cons_of_mem c hx))]
    have h1 : (c :: acc).reverse ++ cs = acc.reverse ++ (c :: cs) := by
      simp [List.reverse_cons, List.append_assoc]
    rw [h1]

theorem wordsAcc_word_space :
    ∀ (w : List Char) (s : Char) (t acc : List Char),
      (∀ c ∈ w, isPySpace c = false) → isPySpace s = true →
      acc.reverse ++ w ≠ [] →
      wordsAcc (w ++ s :: t) acc = (acc.reverse ++ w) :: wordsAcc t [] := by
  intro w
  induction w with
  | nil =>
    intro s t acc _ hs hne
    simp only [List.nil_append, List.append_nil] at hne ⊢
    rw [wordsAcc, if_pos hs]
    have hacc : acc.isEmpty = false := by
      rcases acc with _ | _
      · simp at hne
      · simp
    rw [hacc]
    simp
  | cons c w' ih =>
    intro s t acc h hs _
    have hc : isPySpace c = false := h c (List.mem_cons_self c w')
    rw [List.cons_append, wordsAcc, if_neg (by simp [hc])]
    rw [ih s t (c :: acc) (fun x hx => h x (List.mem_cons_of_mem c hx)) hs
      (by simp)]
    have h1 : (c :: acc).reverse ++ w' = acc.reverse ++ (c :: w') := by
      simp [List.reverse_cons, List.append_assoc]
    rw [h1]

theorem pyWords_joinWords :
    ∀ ws : List (List Char),
      (∀ w ∈ ws, w ≠ [] ∧ ∀ c ∈ w, isPySpace c = false) →
      pyWords (joinWords ws) = ws := by
  intro ws
  induction ws with
  | nil => intro _; rfl
  | cons w ws ih =>
    intro h
    obtain ⟨hwne, hwsp⟩ := h w (List.mem_cons_self w ws)
    rcases ws with _ | ⟨w', rest⟩
    · show pyWords (joinWords [w]) = [w]
      show wordsAcc w [] = [w]
      rw [wordsAcc_nospace w [] hwsp]
      simp only [List.reverse_nil, List.nil_append]
      rw [if_neg (by simp [List.isEmpty_iff, hwne])]
    · show pyWords (w ++ spaceChar :: joinWords (w' :: rest)) = w :: w' :: rest
      unfold pyWords
      rw [wordsAcc_word_space w spaceChar (joinWords (w' :: rest)) [] hwsp
        (by decide) (by simpa using hwne)]
      simp only [List.reverse_nil, List.nil_append]
      have := ih (fun x hx => h x (List.mem_cons_of_mem w hx))
      unfold pyWords at this
      rw [this]

theorem joinWords_head :
    ∀ (c : Char) (cs : List Char) (ws : List (List Char)),
      ∃ x, joinWords ((c :: cs) :: ws) = c :: x := by
  intro c cs ws
  rcases ws with _ | ⟨w', rest⟩
  · exact ⟨cs, rfl⟩
  · exact ⟨cs ++ spaceChar :: joinWords (w' :: rest), rfl⟩

theorem joinWords_last :
    ∀ ws : List (List Char),
      (∀ w ∈ ws, w ≠ [] ∧ ∀ c ∈ w, isPySpace c = false) → ws ≠ [] →
      ∃ l c, joinWords ws = l ++ [c] ∧ isPySpace c = false := by
  intro ws
  induction ws with
  | nil => intro _ h; exact absurd rfl h
  | cons w ws ih =>
    intro h _
    obtain ⟨hwne, hwsp⟩ := h w (List.mem_cons_self w ws)
    rcases ws with _ | ⟨w', rest⟩
    · refine ⟨w.dropLast, w.getLast hwne, ?_, ?_⟩
      · show w = w.dropLast ++ [w.getLast hwne]
        exact (List.dropLast_append_getLast hwne).symm
      · exact hwsp _ (List.getLast_mem hwne)
    · obtain ⟨l, c, hl, hc⟩ :=
        ih (fun x hx => h x (List.mem_cons_of_mem w hx)) (by simp)
      refine ⟨w ++ spaceChar :: l, c, ?_, hc⟩
      show w ++ spaceChar :: joinWords (w' :: rest) = (w ++ spaceChar :: l) ++ [c]
      rw [hl]
      simp [List.append_assoc]

theorem pyStrip_joinWords :
    ∀ ws : List (List Char),
      (∀ w ∈ ws, w ≠ [] ∧ ∀ c ∈ w, isPySpace c = false) →
      pyStrip (joinWords ws) = joinWords ws := by
  intro ws h
  rcases ws with _ | ⟨w, ws⟩
  · rfl
  · obtain ⟨hwne, hwsp⟩ := h w (List.mem_cons_self w ws)
    rcases hw : w with _ | ⟨c, cs⟩
    · exact absurd hw hwne
    subst hw
    have hc : isPySpace c = false := hwsp c (List.mem_cons_self c cs)
    obtain ⟨x, hx⟩ := joinWords_head c cs ws
    obtain ⟨l, lc, hl, hlc⟩ := joinWords_last ((c :: cs) :: ws) h (by simp)
    unfold pyStrip
    rw [hx]
    rw [List.dropWhile_cons_of_neg (by simp [hc])]
    rw [← hx, hl]
    rw [List.reverse_append]
    simp only [List.reverse_singleton, List.singleton_append]
    rw [List.dropWhile_cons_of_neg (by simp [hlc])]
    simp

theorem normalizeChars_idem (l : List Char) :
    normalizeChars (normalizeChars l) = normalizeChars l := by
  have hgood : ∀ w ∈ pyWords (pyStrip l), w ≠ [] ∧ ∀ c ∈ w, isPySpace c = false :=
    wordsAcc_good (pyStrip l) [] (by simp)
  show normalizeChars (joinWords (pyWords (pyStrip l))) = _
  unfold normalizeChars
  rw [pyStrip_joinWords (pyWords (pyStrip l)) hgood]
  rw [pyWords_joinWords (pyWords (pyStrip l)) hgood]

/-- Claim C6: text normalization (collapse each whitespace run to a single
ASCII space and trim the ends, as both scripts do with
`" ".join(raw.strip().split())`) is idempotent:
`normalize (normalize t) = normalize t` for every string `t`. -/
theorem claim_C6_normalize_idempotent (s : String) :
    pyNormalize (pyNormalize s) = pyNormalize s := by
  unfold pyNormalize
  have h : ((normalizeChars s.toList).asString).toList = normalizeChars s.toList := rfl
  rw [h, normalizeChars_idem]

/-- Claim C5: the pixel/point round trip is the identity within `1e-9`:
with `s = dpi / 72 > 0`, `toPixel (toPoint v s) s` differs from `v`
by at most `1e-9` (here exactly `0`, since coordinates are exact rationals). -/
theorem claim_C5_roundtrip (v dpi : ℚ) (h : 0 < dpi) :
    |toPixel (toPoint v (scaleOf dpi)) (scaleOf dpi) - v| ≤ 1 / 1000000000 := by
  have hs : scaleOf dpi ≠ 0 := by
    unfold scaleOf
    positivity
  unfold toPixel toPoint
  rw [div_mul_cancel₀ v hs]
  simp

/-- Witness for C5 at `v = 37/2`, `dpi = 150` (the default capture DPI). -/
theorem claim_C5_witness :
    (0 : ℚ) < 150 ∧
      |toPixel (toPoint (37/2) (scaleOf 150)) (scaleOf 150) - 37/2| ≤ 1 / 1000000000 :=
  ⟨by norm_num, claim_C5_roundtrip (37/2) 150 (by norm_num)⟩

/-- Claim C7: normalizing a user-drawn rectangle (coordinate-wise sorting of
the two corners, `capture_pdf.py` lines 78-79) always yields
`x0 ≤ x1` and `y0 ≤ y1`, whatever the drag order was. -/
theorem claim_C7_corner_normalization (ex ey rx ry : ℚ) :
    (normalizeCorners ex ey rx ry).x0 ≤ (normalizeCorners ex ey rx ry).x1 ∧
      (normalizeCorners ex ey rx ry).y0 ≤ (normalizeCorners ex ey rx ry).y1 :=
  ⟨min_le_max, min_le_max⟩

/-! ### Python dicts
Insertion-ordered association lists. `dictSet` is `d[k] = v`: an existing
key keeps its position and gets the new value, a new key is appended. -/

/-- A Python dict with string keys. -/
abbrev PyDict := List (String × String)

/-- Keys of a dict, in insertion order. -/
def dictKeys {α : Type} (d : List (String × α)) : List String := d.map Prod.fst

/-- `d[k] = v` on a Python dict. -/
def dictSet {α : Type} (d : List (String × α)) (k : String) (v : α) :
    List (String × α) :=
  if d.any (fun p => p.1 = k) then
    d.map (fun p => if p.1 = k then (k, v) else p)
  else d ++ [(k, v)]

/-! ### Capture rows and the interactive session
(`capture_pdf.py` `on_select` lines 72-118, `run` line 156). -/

/-- One accepted capture: the dict appended to `self.rows` (lines 104-113). -/
structure CaptureRow where
  etiqueta : String
  texto : String
  x0 : ℚ
  y0 : ℚ
  x1 : ℚ
  y1 : ℚ
deriving DecidableEq, Repr

/-- The two corners reported by the rectangle selector, in pixel space. -/
structure Selection where
  ex : ℚ
  ey : ℚ
  rx : ℚ
  ry : ℚ
deriving DecidableEq, Repr

/-- Python `round(x, 2)`: round to 2 decimals, ties to even. -/
def round2 (q : ℚ) : ℚ :=
  let m := q * 100
  let n : ℤ := ⌊m⌋
  let r : ℤ :=
    if m - n < 1/2 then n
    else if 1/2 < m - n then n + 1
    else if n % 2 = 0 then n else n + 1
  (r : ℚ) / 100

/-- `on_select` (lines 72-118): normalize the dragged corners, convert to
point space, extract and normalize the text, prompt for a label; a blank
(stripped-empty) label discards the selection, otherwise a capture row is
appended to the session's sequence. `getT` is the external engine's
`page.get_text("text", clip=rect)`. -/
def onSelect (scale : ℚ) (getT : Rect → String) (rows : List CaptureRow)
    (sel : Selection) (labelInput : String) : List CaptureRow :=
  let nc := normalizeCorners sel.ex sel.ey sel.rx sel.ry
  let x0p := toPoint nc.x0 scale
  let y0p := toPoint nc.y0 scale
  let x1p := toPoint nc.x1 scale
  let y1p := toPoint nc.y1 scale
  let cleanText := pyNormalize (getT { x0 := x0p, y0 := y0p, x1 := x1p, y1 := y1p })
  let label := pyStripStr labelInput
  if label = "" then rows
  else
    rows ++ [{ etiqueta := label, texto := cleanText,
               x0 := round2 x0p, y0 := round2 y0p,
               x1 := round2 x1p, y1 := round2 y1p }]

/-- The template saved by `run` (line 156):
`{row["etiqueta"]: [row["x0"], row["y0"], row["x1"], row["y1"]] for row in self.rows}`.
A dict comprehension: later rows overwrite earlier ones with the same label. -/
def templateFromRows (rows : List CaptureRow) : List (String × List ℚ) :=
  rows.foldl (fun d r => dictSet d r.etiqueta [r.x0, r.y0, r.x1, r.y1]) []

/-! ### pandas DataFrames, as far as the two scripts use them -/

/-- A DataFrame cell; `none` models NaN/missing. -/
abbrev Cell := Option String

/-- A DataFrame row, keyed by column name. -/
abbrev DRow := List (String × Cell)

/-- A pandas DataFrame: ordered column labels and rows. -/
structure DF where
  cols : List String
  rows : List DRow
deriving DecidableEq, Repr

/-- Cell access: a key missing from the row is NaN. -/
def getCell (r : DRow) (c : String) : Cell := (r.lookup c).getD none

/-- A Python dict seen as a DataFrame row (every present value non-NaN). -/
def liftRow (d : PyDict) : DRow := d.map (fun kv => (kv.1, some kv.2))

/-- Column union in first-appearance order, as `pd.DataFrame(list_of_dicts)`
computes the columns. -/
def unionKeys (ds : List PyDict) : List String :=
  ds.foldl (fun acc d => acc ++ (dictKeys d).filter (fun k => !(acc.contains k))) []

/-- `pd.DataFrame(rows)` from a list of dicts. -/
def fromDicts (ds : List PyDict) : DF :=
  { cols := unionKeys ds, rows := ds.map liftRow }

/-- `df.rename(columns={old: new})`. -/
def renameCol (old new : String) (df : DF) : DF :=
  { cols := df.cols.map (fun c => if c = old then new else c),
    rows := df.rows.map (fun r => r.map
      (fun kv => (if kv.1 = old then new else kv.1, kv.2))) }

/-- `for col in cs: if col not in df.columns: df[col] = ""`. -/
def ensureCols (cs : List String) (df : DF) : DF :=
  cs.foldl (fun d c =>
    if d.cols.contains c then d
    else { cols := d.cols ++ [c],
           rows := d.rows.map (fun r => r ++ [(c, some "")]) }) df

/-- Cells produced for one requested label `c` by column selection on a
frame with column list `cols`: one cell per column of the frame bearing the
label `c` (pandas keeps duplicate labels), the i-th copy taking the i-th
row entry carrying that label, NaN when the row has fewer. With unique
column labels this is exactly the keyed lookup. -/
def dupCells (cols : List String) (r : DRow) (c : String) : DRow :=
  (List.range ((cols.filter (fun x => x = c)).length)).map
    (fun i => (c, (((r.filter (fun kv => kv.1 = c)).get? i).map Prod.snd).getD none))

/-- `df.loc[:, cs]` / `df[cs]`: for each requested label, every column of
`df` bearing that label is returned, in the frame's column order — a label
duplicated by `rename` therefore yields more output columns than were
requested. A label with no matching column is a KeyError, modelled as
`none`. -/
def selectCols (df : DF) (cs : List String) : Option DF :=
  if cs.all (fun c => df.cols.contains c) then
    some { cols := cs.flatMap (fun c => df.cols.filter (fun x => x = c)),
           rows := df.rows.map (fun r => cs.flatMap (dupCells df.cols r)) }
  else none

/-- `pd.concat([a, b], ignore_index=True)`: when both frames have the same
column index the rows are stacked as-is (this works even with duplicate
labels); otherwise the columns must be aligned to their union — the first
frame's order first, then the second frame's new labels — which pandas
refuses (InvalidIndexError) when either frame carries duplicate labels,
modelled as `none`. -/
def concatDF (a b : DF) : Option DF :=
  if a.cols = b.cols then some { cols := a.cols, rows := a.rows ++ b.rows }
  else if a.cols.Nodup ∧ b.cols.Nodup then
    some { cols := a.cols ++ b.cols.filter (fun c => !(a.cols.contains c)),
           rows := a.rows ++ b.rows }
  else none

/-- How `to_csv` renders one cell: NaN becomes the empty field. -/
def serializeCell (c : Cell) : String := c.getD ""

/-- The persisted CSV content of a DataFrame: header plus one string row
per data row (`to_csv(index=False)`, default `na_rep=""`), each cell read
under its column's label. -/
def serializeDF (df : DF) : List String × List (List String) :=
  (df.cols, df.rows.map (fun r => df.cols.map (fun c => serializeCell (getCell r c))))

/-- How `pd.read_csv` parses one field: the empty field is NaN. -/
def parseCell (s : String) : Cell := if s = "" then none else some s

/-- `pd.read_csv` header handling: duplicate column labels are mangled,
the k-th repeat of a label `x` coming back as `x.k`. -/
def mangleCols (cols : List String) : List String :=
  (cols.foldl
    (fun (acc : List String × List String) c =>
      let n := (acc.2.filter (fun x => x = c)).length
      if n = 0 then (acc.1 ++ [c], acc.2 ++ [c])
      else (acc.1 ++ [c ++ "." ++ toString n], acc.2 ++ [c]))
    ([], [])).1

/-- Reading a persisted table back: `pd.read_csv` of what `to_csv` wrote —
mangled header, every empty field parsed as NaN. -/
def readCsv (csv : List String × List (List String)) : DF :=
  { cols := mangleCols csv.1,
    rows := csv.2.map (fun cells =>
      ((mangleCols csv.1).zip cells).map (fun p => (p.1, parseCell p.2))) }

/-- The fixed output schema of both scripts
(`extract_with_template.py` lines 56-64, `capture_pdf.py` lines 164-172). -/
def expected_cols : List String :=
  ["nombre_plan", "alto", "medio", "bajo", "alto_ambu", "medio_ambu", "bajo_ambu"]

/-- The accumulation step of batch mode (`extract_with_template.py`
lines 51-92): build a frame from the new rows, rename `nombre` to
`nombre_plan`, pad missing schema columns with `""`, select the schema;
if a previous table exists, pad and select it the same way and append the
new frame after it. -/
def batchAccumulate (prev : Option DF) (newRows : List PyDict) : Option DF :=
  match selectCols
      (ensureCols expected_cols (renameCol "nombre" "nombre_plan" (fromDicts newRows)))
      expected_cols, prev with
  | none, _ => none
  | some d, some p =>
    (selectCols (ensureCols expected_cols p) expected_cols).bind
      (fun q => concatDF q d)
  | some d, none => some d

/-- The accumulation step of capture mode (`capture_pdf.py` lines 184-195):
one new plan row, appended after the previously persisted rows if any,
then the schema columns are selected in order. -/
def captureAccumulate (prev : Option DF) (row : PyDict) : Option DF :=
  match prev with
  | some p => (concatDF p (fromDicts [row])).bind (fun t => selectCols t expected_cols)
  | none => selectCols (fromDicts [row]) expected_cols

/-- The plan row built by `run` (lines 174-182): every schema column
initialized to `""`, `nombre_plan` set to the PDF's stem, then each capture
row whose label is a schema column overwrites that column. -/
def planRow (stem : String) (rows : List CaptureRow) : PyDict :=
  rows.foldl
    (fun d r => if expected_cols.contains r.etiqueta then dictSet d r.etiqueta r.texto else d)
    (dictSet (expected_cols.map (fun c => (c, ""))) "nombre_plan" stem)

/-! Helper shapes of the accumulated rows, used to characterize the merge. -/

/-- The column renaming applied by batch mode. -/
def renameKeyNombre (k : String) : String := if k = "nombre" then "nombre_plan" else k

/-- A new-row dict after `pd.DataFrame` and the `nombre` rename. -/
def renRowD (d : PyDict) : DRow :=
  (liftRow d).map (fun kv => (if kv.1 = "nombre" then "nombre_plan" else kv.1, kv.2))

/-- The `""` padding cells appended for schema columns absent from `pcols`. -/
def padsFor (pcols : List String) : DRow :=
  (expected_cols.filter (fun c => !(pcols.contains c))).map (fun c => (c, some ""))

/-- Realignment of a row to the fixed schema, as column selection does. -/
def alignRow (r : DRow) : DRow := expected_cols.map (fun c => (c, getCell r c))

/-- Final shape of a batch-mode output row for input dict `d`. -/
def batchOutRow (ds : List PyDict) (d : PyDict) : DRow :=
  alignRow (renRowD d ++ padsFor ((unionKeys ds).map renameKeyNombre))

/-- Final shape of a pre-existing row (from a table with columns `pcols`)
after batch-mode padding and selection. -/
def prevOutRow (pcols : List String) (r : DRow) : DRow :=
  alignRow (r ++ padsFor pcols)

/-! ### Association-list lemmas -/

theorem lookup_eq_none_of_forall {α : Type} (l : List (String × α)) (a : String)
    (h : ∀ p ∈ l, p.1 ≠ a) : l.lookup a = none := by
  induction l with
  | nil => rfl
  | cons p l ih =>
    have hp : p.1 ≠ a := h p (List.mem_cons_self p l)
    have hb : (a == p.1) = false := beq_eq_false_iff_ne.mpr (fun hh => hp hh.symm)
    rw [List.lookup, hb]
    exact ih (fun q hq => h q (List.mem_cons_of_mem p hq))

theorem lookup_map_pair {α : Type} (cs : List String) (f : String → α) (c : String)
    (h : c ∈ cs) : (cs.map (fun x => (x, f x))).lookup c = some (f c) := by
  induction cs with
  | nil => cases h
  | cons x cs ih =>
    rcases List.mem_cons.mp h with h1 | h1
    · subst h1
      simp [List.lookup]
    · by_cases hx : c = x
      · subst hx
        simp [List.lookup]
      · have hb : (c == x) = false := beq_eq_false_iff_ne.mpr hx
        rw [List.map_cons, List.lookup, hb]
        exact ih h1

theorem getCell_append (r s : DRow) (c : String) :
    getCell (r ++ s) c = match r.lookup c with
      | some v => v
      | none => getCell s c := by
  unfold getCell
  rw [List.lookup_append]
  rcases h : r.lookup c with _ | v
  · simp
  · simp

theorem getCell_alignRow (r : DRow) (c : String) (h : c ∈ expected_cols) :
    getCell (alignRow r) c = getCell r c := by
  show ((expected_cols.map (fun x => (x, getCell r x))).lookup c).getD none = getCell r c
  rw [lookup_map_pair expected_cols (fun x => getCell r x) c h]
  rfl

theorem alignRow_align (r : DRow) : alignRow (alignRow r) = alignRow r := by
  show expected_cols.map (fun c => (c, getCell (alignRow r) c))
      = expected_cols.map (fun c => (c, getCell r c))
  refine List.map_congr_left ?_
  intro c hc
  show (c, getCell (alignRow r) c) = (c, getCell r c)
  rw [getCell_alignRow r c hc]

/-! ### DataFrame operation characterizations -/

theorem expected_nodup : expected_cols.Nodup := by decide

theorem expected_filter_self :
    expected_cols.filter (fun c => !(expected_cols.contains c)) = [] := by decide

theorem ensureCols_eq (cs : List String) (df : DF) (h : cs.Nodup) :
    ensureCols cs df =
      ⟨df.cols ++ cs.filter (fun c => !(df.cols.contains c)),
       df.rows.map (fun r =>
         r ++ (cs.filter (fun c => !(df.cols.contains c))).map (fun c => (c, some "")))⟩ := by
  induction cs generalizing df with
  | nil =>
    simp [ensureCols]
  | cons c cs ih =>
    have hnotin : c ∉ cs := (List.nodup_cons.mp h).1
    have hnd : cs.Nodup := (List.nodup_cons.mp h).2
    by_cases hc : df.cols.contains c = true
    · have hcm : c ∈ df.cols := List.elem_iff.mp hc
      have h1 : ensureCols (c :: cs) df = ensureCols cs df := by
        unfold ensureCols
        rw [List.foldl_cons]
        congr 1
        simp [hcm]
      rw [h1, ih df hnd]
      have hfe : cs.filter (fun x => !(df.cols.contains x))
          = (c :: cs).filter (fun x => !(df.cols.contains x)) := by
        rw [List.filter_cons]
        rw [if_neg (by simp [hcm])]
      rw [hfe]
    · have hcm : c ∉ df.cols := fun hm => hc (List.elem_iff.mpr hm)
      have h1 : ensureCols (c :: cs) df
          = ensureCols cs
              ⟨df.cols ++ [c], df.rows.map (fun r => r ++ [(c, some "")])⟩ := by
        unfold ensureCols
        rw [List.foldl_cons]
        congr 1
        simp [hcm]
      rw [h1, ih _ hnd]
      have hcong : ∀ x ∈ cs,
          (!((df.cols ++ [c]).contains x)) = (!(df.cols.contains x)) := by
        intro x hx
        have hxc : x ≠ c := fun he => hnotin (he ▸ hx)
        by_cases hmem : x ∈ df.cols
        · have h1 : (df.cols ++ [c]).contains x = true :=
            List.elem_iff.mpr (List.mem_append_left _ hmem)
          have h2 : df.cols.contains x = true := List.elem_iff.mpr hmem
          rw [h1, h2]
        · have h1 : (df.cols ++ [c]).contains x = false := by
            rw [Bool.eq_false_iff]
            intro hcon
            rcases List.mem_append.mp (List.elem_iff.mp hcon) with hh | hh
            · exact hmem hh
            · exact hxc (List.mem_singleton.mp hh)
          have h2 : df.cols.contains x = false := by
            rw [Bool.eq_false_iff]
            intro hcon
            exact hmem (List.elem_iff.mp hcon)
          rw [h1, h2]
      have hfilter : cs.filter (fun x => !((df.cols ++ [c]).contains x))
          = cs.filter (fun x => !(df.cols.contains x)) :=
        List.filter_congr hcong
      simp only [hfilter]
      have hcols : (df.cols ++ [c]) ++ cs.filter (fun x => !(df.cols.contains x))
          = df.cols ++ (c :: cs).filter (fun x => !(df.cols.contains x)) := by
        rw [List.filter_cons, if_pos (by simp [hcm])]
        simp [List.append_assoc]
      have hrowfun : ∀ r : DRow,
          (r ++ [(c, (some "" : Cell))]) ++ (cs.filter (fun x => !(df.cols.contains x))).map
              (fun x => (x, (some "" : Cell)))
          = r ++ ((c :: cs).filter (fun x => !(df.cols.contains x))).map
              (fun x => (x, (some "" : Cell))) := by
        intro r
        rw [List.filter_cons, if_pos (by simp [hcm])]
        simp [List.append_assoc]
      refine congrArg₂ DF.mk hcols ?_
      rw [List.map_map]
      refine List.map_congr_left ?_
      intro r _
      exact hrowfun r

theorem lookup_eq_filter_head {α : Type} (r : List (String × α)) (c : String) :
    r.lookup c = ((r.filter (fun kv => kv.1 = c)).head?).map Prod.snd := by
  induction r with
  | nil => rfl
  | cons kv tl ih =>
    by_cases h : kv.1 = c
    · have hb : (c == kv.1) = true := beq_iff_eq.mpr h.symm
      rw [List.lookup, hb, List.filter_cons, if_pos (by simp [h])]
      rfl
    · have hb : (c == kv.1) = false := beq_eq_false_iff_ne.mpr (fun hh => h hh.symm)
      rw [List.lookup, hb, List.filter_cons, if_neg (by simp [h])]
      exact ih

theorem filter_eq_single_of_nodup (cols : List String) (c : String)
    (hnd : cols.Nodup) (hmem : c ∈ cols) :
    cols.filter (fun x => x = c) = [c] := by
  induction cols with
  | nil => cases hmem
  | cons x tl ih =>
    rcases List.mem_cons.mp hmem with h | h
    · subst h
      rw [List.filter_cons, if_pos (by simp)]
      have htl : tl.filter (fun y => y = c) = [] := by
        refine List.filter_eq_nil_iff.mpr ?_
        intro y hy hdec
        have hyx : y = c := of_decide_eq_true hdec
        exact (List.nodup_cons.mp hnd).1 (hyx ▸ hy)
      rw [htl]
    · have hxc : x ≠ c := fun he => (List.nodup_cons.mp hnd).1 (he ▸ h)
      rw [List.filter_cons, if_neg (by simp [hxc])]
      exact ih (List.nodup_cons.mp hnd).2 h

theorem flatMap_eq_map_of_forall {β : Type} (cs : List String) (g : String → List β)
    (f : String → β) (h : ∀ c ∈ cs, g c = [f c]) : cs.flatMap g = cs.map f := by
  induction cs with
  | nil => rfl
  | cons c cs ih =>
    rw [List.flatMap_cons, h c (List.mem_cons_self c cs),
      ih (fun x hx => h x (List.mem_cons_of_mem c hx))]
    rfl

theorem get?_zero_eq_head {α : Type} (l : List α) : l.get? 0 = l.head? := by
  cases l <;> rfl

theorem dupCells_single (cols : List String) (r : DRow) (c : String)
    (hnd : cols.Nodup) (hmem : c ∈ cols) :
    dupCells cols r c = [(c, getCell r c)] := by
  unfold dupCells
  rw [filter_eq_single_of_nodup cols c hnd hmem]
  rw [show (([c] : List String).length) = 1 from rfl]
  rw [show List.range 1 = [0] from by decide]
  rw [List.map_singleton]
  rw [get?_zero_eq_head]
  have hg : getCell r c = (((r.filter (fun kv => kv.1 = c)).head?).map Prod.snd).getD none := by
    unfold getCell
    rw [lookup_eq_filter_head]
  rw [hg]

theorem selectCols_eq_nodup (df : DF) (cs : List String) (hnd : df.cols.Nodup)
    (h : ∀ c ∈ cs, df.cols.contains c = true) :
    selectCols df cs =
      some ⟨cs, df.rows.map (fun r => cs.map (fun c => (c, getCell r c)))⟩ := by
  unfold selectCols
  rw [if_pos (List.all_eq_true.mpr h)]
  refine congrArg some (congrArg₂ DF.mk ?_ ?_)
  · have hb : cs.flatMap (fun c => df.cols.filter (fun x => x = c)) = cs.map id :=
      flatMap_eq_map_of_forall cs _ id
        (fun c hc => filter_eq_single_of_nodup df.cols c hnd (List.elem_iff.mp (h c hc)))
    rw [hb, List.map_id]
  · refine List.map_congr_left ?_
    intro r _
    exact flatMap_eq_map_of_forall cs _ _
      (fun c hc => dupCells_single df.cols r c hnd (List.elem_iff.mp (h c hc)))

theorem nodup_cols_pad (A : List String) (hA : A.Nodup) :
    (A ++ expected_cols.filter (fun c => !(A.contains c))).Nodup := by
  rw [List.nodup_append]
  refine ⟨hA, expected_nodup.filter _, ?_⟩
  intro x hxA hxf
  have hc := (List.mem_filter.mp hxf).2
  have h2 : A.contains x = true := List.elem_iff.mpr hxA
  rw [h2] at hc
  exact Bool.noConfusion hc

theorem contains_pad_union (cols cs : List String) :
    ∀ c ∈ cs, (cols ++ cs.filter (fun x => !(cols.contains x))).contains c = true := by
  intro c hc
  by_cases h : c ∈ cols
  · exact List.elem_iff.mpr (List.mem_append_left _ h)
  · refine List.elem_iff.mpr (List.mem_append_right _ ?_)
    refine List.mem_filter.mpr ⟨hc, ?_⟩
    simp only [Bool.not_eq_true']
    rw [Bool.eq_false_iff]
    intro hcon
    exact h (List.elem_iff.mp hcon)

theorem batchAccumulate_none_spec (ds : List PyDict)
    (hsep : ((unionKeys ds).map renameKeyNombre).Nodup) :
    batchAccumulate none ds = some ⟨expected_cols, ds.map (batchOutRow ds)⟩ := by
  have hdf0 : renameCol "nombre" "nombre_plan" (fromDicts ds)
      = ⟨(unionKeys ds).map renameKeyNombre, ds.map renRowD⟩ := by
    unfold renameCol fromDicts renRowD renameKeyNombre
    simp [List.map_map]
  have hsel : selectCols
      (ensureCols expected_cols (renameCol "nombre" "nombre_plan" (fromDicts ds)))
      expected_cols = some ⟨expected_cols, ds.map (batchOutRow ds)⟩ := by
    rw [hdf0]
    rw [ensureCols_eq expected_cols _ expected_nodup]
    rw [selectCols_eq_nodup _ expected_cols (nodup_cols_pad _ hsep)
      (contains_pad_union ((unionKeys ds).map renameKeyNombre) expected_cols)]
    refine congrArg some (congrArg (DF.mk expected_cols) ?_)
    simp only [List.map_map]
    rfl
  unfold batchAccumulate
  rw [hsel]

theorem prev_select_spec (p : DF) (hp : p.cols.Nodup) :
    selectCols (ensureCols expected_cols p) expected_cols
      = some ⟨expected_cols, p.rows.map (prevOutRow p.cols)⟩ := by
  rw [ensureCols_eq expected_cols p expected_nodup]
  rw [selectCols_eq_nodup _ expected_cols (nodup_cols_pad p.cols hp)
    (contains_pad_union p.cols expected_cols)]
  refine congrArg some (congrArg (DF.mk expected_cols) ?_)
  rw [List.map_map]
  rfl

theorem concat_same_cols (X : List String) (pr nr : List DRow) :
    concatDF ⟨X, pr⟩ ⟨X, nr⟩ = some ⟨X, pr ++ nr⟩ := by
  unfold concatDF
  rw [if_pos rfl]

theorem batchAccumulate_some_spec (p : DF) (ds : List PyDict)
    (hsep : ((unionKeys ds).map renameKeyNombre).Nodup) (hp : p.cols.Nodup) :
    batchAccumulate (some p) ds
      = some ⟨expected_cols, p.rows.map (prevOutRow p.cols) ++ ds.map (batchOutRow ds)⟩ := by
  have hdf0 : renameCol "nombre" "nombre_plan" (fromDicts ds)
      = ⟨(unionKeys ds).map renameKeyNombre, ds.map renRowD⟩ := by
    unfold renameCol fromDicts renRowD renameKeyNombre
    simp [List.map_map]
  have hsel : selectCols
      (ensureCols expected_cols (renameCol "nombre" "nombre_plan" (fromDicts ds)))
      expected_cols = some ⟨expected_cols, ds.map (batchOutRow ds)⟩ := by
    rw [hdf0]
    rw [ensureCols_eq expected_cols _ expected_nodup]
    rw [selectCols_eq_nodup _ expected_cols (nodup_cols_pad _ hsep)
      (contains_pad_union ((unionKeys ds).map renameKeyNombre) expected_cols)]
    refine congrArg some (congrArg (DF.mk expected_cols) ?_)
    simp only [List.map_map]
    rfl
  unfold batchAccumulate
  rw [hsel]
  show (selectCols (ensureCols expected_cols p) expected_cols).bind
      (fun q => concatDF q (DF.mk expected_cols (ds.map (batchOutRow ds)))) = _
  rw [prev_select_spec p hp]
  show concatDF (DF.mk expected_cols (p.rows.map (prevOutRow p.cols)))
      (DF.mk expected_cols (ds.map (batchOutRow ds))) = _
  rw [concat_same_cols]

/-! Padding facts: a cell of a column the source row does not have
serializes to the empty string in the persisted CSV. -/

theorem serialize_getCell_const (xs : List String) (c : String) :
    serializeCell (getCell (xs.map (fun x => (x, (some "" : Cell)))) c) = "" := by
  induction xs with
  | nil => rfl
  | cons x xs ih =>
    by_cases h : c = x
    · subst h
      simp [getCell, List.lookup, serializeCell]
    · have hb : (c == x) = false := beq_eq_false_iff_ne.mpr h
      unfold getCell serializeCell at ih ⊢
      rw [List.map_cons, List.lookup, hb]
      exact ih

theorem serialize_getCell_pads (pc : List String) (c : String) :
    serializeCell (getCell (padsFor pc) c) = "" := by
  unfold padsFor
  exact serialize_getCell_const _ c

theorem renRowD_lookup_none (d : PyDict) (c : String)
    (h : ∀ kv ∈ d, renameKeyNombre kv.1 ≠ c) : (renRowD d).lookup c = none := by
  refine lookup_eq_none_of_forall _ c ?_
  intro p hp
  unfold renRowD at hp
  obtain ⟨q, hq, hqe⟩ := List.mem_map.mp hp
  obtain ⟨kv, hkv, hkve⟩ := List.mem_map.mp hq
  subst hqe
  subst hkve
  exact h kv hkv

theorem batchOutRow_missing (ds : List PyDict) (d : PyDict) (c : String)
    (hc : c ∈ expected_cols) (hmiss : ∀ kv ∈ d, renameKeyNombre kv.1 ≠ c) :
    serializeCell (getCell (batchOutRow ds d) c) = "" := by
  unfold batchOutRow
  rw [getCell_alignRow _ c hc]
  rw [getCell_append]
  rw [renRowD_lookup_none d c hmiss]
  exact serialize_getCell_pads _ c

theorem prevOutRow_missing (pcols : List String) (r : DRow) (c : String)
    (hc : c ∈ expected_cols) (hmiss : getCell r c = none) :
    serializeCell (getCell (prevOutRow pcols r) c) = "" := by
  unfold prevOutRow
  rw [getCell_alignRow _ c hc]
  rw [getCell_append]
  rcases h : r.lookup c with _ | v
  · exact serialize_getCell_pads _ c
  · have : v = none := by
      unfold getCell at hmiss
      rw [h] at hmiss
      exact hmiss
    subst this
    rfl

theorem alignRow_missing (r : DRow) (c : String)
    (hc : c ∈ expected_cols) (hmiss : getCell r c = none) :
    serializeCell (getCell (alignRow r) c) = "" := by
  rw [getCell_alignRow _ c hc, hmiss]
  rfl

/-! The capture-mode plan row always carries the full schema. -/

theorem dictKeys_dictSet_of_mem {α : Type} (d : List (String × α)) (k : String) (v : α)
    (h : k ∈ dictKeys d) : dictKeys (dictSet d k v) = dictKeys d := by
  obtain ⟨p, hp, hpe⟩ := List.mem_map.mp h
  unfold dictSet
  rw [if_pos (List.any_eq_true.mpr ⟨p, hp, decide_eq_true hpe⟩)]
  unfold dictKeys
  rw [List.map_map]
  refine List.map_congr_left ?_
  intro q _
  show (if q.1 = k then (k, v) else q).1 = q.1
  by_cases hq : q.1 = k
  · rw [if_pos hq, hq]
  · rw [if_neg hq]

theorem planRow_keys (stem : String) (crows : List CaptureRow) :
    dictKeys (planRow stem crows) = expected_cols := by
  have hinitkeys : dictKeys (expected_cols.map (fun c => (c, ""))) = expected_cols := by
    unfold dictKeys
    rw [List.map_map]
    exact List.map_id expected_cols
  have hinit : dictKeys (dictSet (expected_cols.map (fun c => (c, ""))) "nombre_plan" stem)
      = expected_cols := by
    rw [dictKeys_dictSet_of_mem _ _ _ (by rw [hinitkeys]; decide)]
    exact hinitkeys
  unfold planRow
  generalize hgen : dictSet (expected_cols.map (fun c => (c, ""))) "nombre_plan" stem = d0
  rw [hgen] at hinit
  clear hgen
  induction crows generalizing d0 with
  | nil => exact hinit
  | cons r crows ih =>
    rw [List.foldl_cons]
    by_cases hr : expected_cols.contains r.etiqueta = true
    · have h1 : (if expected_cols.contains r.etiqueta
          then dictSet d0 r.etiqueta r.texto else d0) = dictSet d0 r.etiqueta r.texto := by
        rw [if_pos hr]
      rw [h1]
      refine ih _ ?_
      rw [dictKeys_dictSet_of_mem _ _ _ (by rw [hinit]; exact List.elem_iff.mp hr)]
      exact hinit
    · have h1 : (if expected_cols.contains r.etiqueta
          then dictSet d0 r.etiqueta r.texto else d0) = d0 := by
        rw [if_neg hr]
      rw [h1]
      exact ih _ hinit

theorem unionKeys_single (d : PyDict) : unionKeys [d] = dictKeys d := by
  show [] ++ (dictKeys d).filter (fun k => !(([] : List String).contains k)) = dictKeys d
  rw [List.nil_append]
  rw [List.filter_congr (fun x _ => by rfl : ∀ x ∈ dictKeys d,
    (fun k => !(([] : List String).contains k)) x = (fun _ => true) x)]
  exact List.filter_true _

theorem fromDicts_single (row : PyDict) (hk : dictKeys row = expected_cols) :
    fromDicts [row] = ⟨expected_cols, [liftRow row]⟩ := by
  unfold fromDicts
  rw [show unionKeys [row] = expected_cols from by rw [unionKeys_single, hk]]
  rfl

theorem captureAccumulate_none_spec (row : PyDict) (hk : dictKeys row = expected_cols) :
    captureAccumulate none row = some ⟨expected_cols, [alignRow (liftRow row)]⟩ := by
  show selectCols (fromDicts [row]) expected_cols = _
  rw [fromDicts_single row hk]
  rw [selectCols_eq_nodup _ expected_cols expected_nodup (fun c hc => List.elem_iff.mpr hc)]
  rfl

theorem captureAccumulate_some_spec (p : DF) (row : PyDict)
    (hk : dictKeys row = expected_cols) (hp : p.cols.Nodup) :
    captureAccumulate (some p) row
      = some ⟨expected_cols, p.rows.map alignRow ++ [alignRow (liftRow row)]⟩ := by
  show (concatDF p (fromDicts [row])).bind (fun t => selectCols t expected_cols) = _
  rw [fromDicts_single row hk]
  by_cases hpe : p.cols = expected_cols
  · have hcc : concatDF p ⟨expected_cols, [liftRow row]⟩
        = some ⟨p.cols, p.rows ++ [liftRow row]⟩ := by
      unfold concatDF
      rw [if_pos hpe]
    rw [hcc]
    show selectCols ⟨p.cols, p.rows ++ [liftRow row]⟩ expected_cols = _
    rw [hpe]
    rw [selectCols_eq_nodup _ expected_cols expected_nodup (fun c hc => List.elem_iff.mpr hc)]
    refine congrArg some (congrArg (DF.mk expected_cols) ?_)
    show (p.rows ++ [liftRow row]).map (fun r => expected_cols.map (fun c => (c, getCell r c)))
        = p.rows.map alignRow ++ [alignRow (liftRow row)]
    rw [List.map_append]
    rfl
  · have hcc : concatDF p ⟨expected_cols, [liftRow row]⟩
        = some ⟨p.cols ++ expected_cols.filter (fun c => !(p.cols.contains c)),
                p.rows ++ [liftRow row]⟩ := by
      unfold concatDF
      rw [if_neg hpe, if_pos ⟨hp, expected_nodup⟩]
    rw [hcc]
    show selectCols ⟨p.cols ++ expected_cols.filter (fun c => !(p.cols.contains c)),
        p.rows ++ [liftRow row]⟩ expected_cols = _
    rw [selectCols_eq_nodup _ expected_cols (nodup_cols_pad p.cols hp)
      (contains_pad_union p.cols expected_cols)]
    refine congrArg some (congrArg (DF.mk expected_cols) ?_)
    show (p.rows ++ [liftRow row]).map (fun r => expected_cols.map (fun c => (c, getCell r c)))
        = p.rows.map alignRow ++ [alignRow (liftRow row)]
    rw [List.map_append]
    rfl

/-- Claim C1 counterexample: a batch row carrying both a `nombre` and a
`nombre_plan` field — exactly what `extract_single` produces whenever the
template itself has a `nombre_plan` label — makes the
`rename(columns={"nombre": "nombre_plan"})` duplicate the `nombre_plan`
column label; the pad loop skips the present label and
`df.loc[:, expected_cols]` keeps both copies, so the program persists an
eight-column table, not exactly the seven schema columns in order. -/
theorem claim_C1_counterexample :
    (batchAccumulate none [[("nombre", "a"), ("nombre_plan", "b")]]).map DF.cols
      = some ["nombre_plan", "nombre_plan", "alto", "medio", "bajo",
              "alto_ambu", "medio_ambu", "bajo_ambu"] ∧
    ["nombre_plan", "nombre_plan", "alto", "medio", "bajo",
     "alto_ambu", "medio_ambu", "bajo_ambu"] ≠ expected_cols :=
  ⟨by decide, by decide⟩

/-- Claim C1 as amended: provided no new batch row carries both a `nombre`
and a `nombre_plan` field (so the rename keeps the column labels
duplicate-free) and the pre-existing table's column labels are
duplicate-free (as a `read_csv` round trip guarantees), every merge
performed by the accumulation step — capture mode (`capture_pdf.py` lines
184-195, whose plan row needs no proviso) or batch mode
(`extract_with_template.py` lines 56-92) — persists a table whose columns
are exactly `[nombre_plan, alto, medio, bajo, alto_ambu, medio_ambu,
bajo_ambu]` in that order, regardless of the key order of the input row
dicts; and any row, new or pre-existing, that is missing one of these
columns carries the empty string there in the persisted output (batch mode
pads with `""` before the merge; a pre-existing capture-mode cell that is
absent is NaN in memory and is written out as the empty field). -/
theorem claim_C1_schema_and_padding :
    (∀ (prev : Option DF) (ds : List PyDict),
        ((unionKeys ds).map renameKeyNombre).Nodup →
        (∀ p, prev = some p → p.cols.Nodup) →
        ∃ t, batchAccumulate prev ds = some t ∧
        t.cols = expected_cols ∧
        (serializeDF t).1 = expected_cols ∧
        t.rows = (match prev with
                  | some p => p.rows.map (prevOutRow p.cols)
                  | none => []) ++ ds.map (batchOutRow ds) ∧
        (∀ d ∈ ds, ∀ c ∈ expected_cols, (∀ kv ∈ d, renameKeyNombre kv.1 ≠ c) →
            serializeCell (getCell (batchOutRow ds d) c) = "") ∧
        (∀ p, prev = some p → ∀ r ∈ p.rows, ∀ c ∈ expected_cols,
            getCell r c = none →
            serializeCell (getCell (prevOutRow p.cols r) c) = "")) ∧
    (∀ (prev : Option DF) (stem : String) (crows : List CaptureRow),
        (∀ p, prev = some p → p.cols.Nodup) →
        ∃ t, captureAccumulate prev (planRow stem crows) = some t ∧
        t.cols = expected_cols ∧
        (serializeDF t).1 = expected_cols ∧
        t.rows = (match prev with
                  | some p => p.rows.map alignRow
                  | none => []) ++ [alignRow (liftRow (planRow stem crows))] ∧
        (∀ p, prev = some p → ∀ r ∈ p.rows, ∀ c ∈ expected_cols,
            getCell r c = none →
            serializeCell (getCell (alignRow r) c) = "")) := by
  constructor
  · intro prev ds hsep hpnd
    rcases prev with _ | p
    · refine ⟨⟨expected_cols, ds.map (batchOutRow ds)⟩, batchAccumulate_none_spec ds hsep,
        rfl, rfl, by simp, ?_, ?_⟩
      · intro d _ c hc hmiss
        exact batchOutRow_missing ds d c hc hmiss
      · intro p hp
        cases hp
    · refine ⟨⟨expected_cols, p.rows.map (prevOutRow p.cols) ++ ds.map (batchOutRow ds)⟩,
        batchAccumulate_some_spec p ds hsep (hpnd p rfl), rfl, rfl, rfl, ?_, ?_⟩
      · intro d _ c hc hmiss
        exact batchOutRow_missing ds d c hc hmiss
      · intro q hq r hr c hc hmiss
        cases hq
        exact prevOutRow_missing p.cols r c hc hmiss
  · intro prev stem crows hpnd
    rcases prev with _ | p
    · refine ⟨⟨expected_cols, [alignRow (liftRow (planRow stem crows))]⟩,
        captureAccumulate_none_spec _ (planRow_keys stem crows), rfl, rfl, by simp, ?_⟩
      intro p hp
      cases hp
    · refine ⟨⟨expected_cols, p.rows.map alignRow ++ [alignRow (liftRow (planRow stem crows))]⟩,
        captureAccumulate_some_spec p _ (planRow_keys stem crows) (hpnd p rfl),
        rfl, rfl, rfl, ?_⟩
      intro q hq r _ c hc hmiss
      cases hq
      exact alignRow_missing r c hc hmiss

/-- Witness for C1 at a concrete merge: a duplicate-free previous table
missing six of the seven schema columns and a new row dict holding only
`alto`; the result has the exact schema and the missing cells persist as
the empty string. -/
theorem claim_C1_witness :
    ∃ t, batchAccumulate (some ⟨["nombre_plan"], [[("nombre_plan", some "p1")]]⟩)
          [[("alto", "9")]] = some t ∧
      t.cols = expected_cols ∧
      serializeCell (getCell (batchOutRow [[("alto", "9")]] [("alto", "9")]) "medio") = "" ∧
      serializeCell (getCell (prevOutRow ["nombre_plan"] [("nombre_plan", some "p1")]) "bajo")
        = "" := by
  obtain ⟨hb, _⟩ := claim_C1_schema_and_padding
  obtain ⟨t, h1, h2, _, _, hnew, hprev⟩ :=
    hb (some ⟨["nombre_plan"], [[("nombre_plan", some "p1")]]⟩) [[("alto", "9")]]
      (by decide) (fun p hp => by cases hp; decide)
  refine ⟨t, h1, h2, ?_, ?_⟩
  · exact hnew _ (by simp) "medio" (by decide) (by decide)
  · exact hprev _ rfl _ (by simp) "bajo" (by decide) (by decide)

theorem padsFor_expected : padsFor expected_cols = [] := by
  unfold padsFor
  rw [expected_filter_self]
  rfl

theorem prevOutRow_expected (r : DRow) : prevOutRow expected_cols r = alignRow r := by
  unfold prevOutRow
  rw [padsFor_expected]
  rw [List.append_nil]

theorem getCell_map_pair (f : String → Cell) (c : String) (hc : c ∈ expected_cols) :
    getCell (expected_cols.map (fun x => (x, f x))) c = f c := by
  unfold getCell
  rw [lookup_map_pair expected_cols f c hc]
  rfl

theorem alignRow_map_pair (f : String → Cell) :
    alignRow (expected_cols.map (fun c => (c, f c)))
      = expected_cols.map (fun c => (c, f c)) := by
  show expected_cols.map (fun c => (c, getCell (expected_cols.map (fun x => (x, f x))) c))
      = expected_cols.map (fun c => (c, f c))
  refine List.map_congr_left ?_
  intro c hc
  show (c, getCell (expected_cols.map (fun x => (x, f x))) c) = (c, f c)
  rw [getCell_map_pair f c hc]

theorem roundCell (x : Cell) :
    serializeCell (parseCell (serializeCell x)) = serializeCell x := by
  rcases x with _ | s
  · rfl
  · by_cases h : s = ""
    · subst h
      rfl
    · show serializeCell (parseCell s) = s
      unfold parseCell
      rw [if_neg h]
      rfl

theorem zip_self_map {β : Type} (l : List String) (f : String → β) :
    l.zip (l.map f) = l.map (fun c => (c, f c)) := by
  induction l with
  | nil => rfl
  | cons c l ih =>
    show (c, f c) :: l.zip (l.map f) = (c, f c) :: l.map (fun x => (x, f x))
    rw [ih]

theorem mangle_expected : mangleCols expected_cols = expected_cols := by decide

theorem readCsv_roundtrip (r : DRow) :
    readCsv (serializeDF ⟨expected_cols, [r]⟩)
      = ⟨expected_cols,
         [expected_cols.map (fun c => (c, parseCell (serializeCell (getCell r c))))]⟩ := by
  have h1 : serializeDF ⟨expected_cols, [r]⟩
      = (expected_cols, [expected_cols.map (fun c => serializeCell (getCell r c))]) := rfl
  rw [h1]
  unfold readCsv
  rw [show ((expected_cols,
      [expected_cols.map (fun c => serializeCell (getCell r c))]).1 : List String)
    = expected_cols from rfl]
  rw [mangle_expected]
  refine congrArg (DF.mk expected_cols) ?_
  show [(expected_cols.zip (expected_cols.map (fun c => serializeCell (getCell r c)))).map
      (fun p => (p.1, parseCell p.2))] = _
  rw [zip_self_map]
  rw [List.map_map]
  rfl

/-- Claim C2 counterexample: with a new row carrying both a `nombre` and a
`nombre_plan` field, the first run persists a duplicated `nombre_plan`
column; `read_csv` mangles the duplicate on the way back in, so the second
run must concatenate a seven-label previous frame with an eight-label
duplicated new frame, which pandas refuses — the second run produces no
table at all, let alone a 2-row table with identical rows. -/
theorem claim_C2_counterexample :
    (batchAccumulate none [[("nombre", "a"), ("nombre_plan", "b")]]).bind
      (fun t1 => batchAccumulate (some (readCsv (serializeDF t1)))
        [[("nombre", "a"), ("nombre_plan", "b")]]) = none := by decide

/-- Claim C2 as amended: running the accumulation step twice with the same
single new row from an initially absent persisted table — re-reading the
persisted CSV between the runs — yields a two-row persisted table whose two
rows are identical, the pre-existing row first and the new row appended
after, with no deduplication or upsert; in batch mode provided the new row
does not carry both a `nombre` and a `nombre_plan` field (that case makes
the first run persist a duplicated column label and the second run fail
with no table produced — see the counterexample). Capture mode needs no
proviso. -/
theorem claim_C2_append_only :
    (∀ d : PyDict, ((unionKeys [d]).map renameKeyNombre).Nodup →
        ∃ t1 t2 sr, batchAccumulate none [d] = some t1 ∧
          batchAccumulate (some (readCsv (serializeDF t1))) [d] = some t2 ∧
          serializeDF t1 = (expected_cols, [sr]) ∧
          serializeDF t2 = (expected_cols, [sr, sr])) ∧
    (∀ (stem : String) (crows : List CaptureRow),
        ∃ t1 t2 sr, captureAccumulate none (planRow stem crows) = some t1 ∧
          captureAccumulate (some (readCsv (serializeDF t1))) (planRow stem crows)
            = some t2 ∧
          serializeDF t1 = (expected_cols, [sr]) ∧
          serializeDF t2 = (expected_cols, [sr, sr])) := by
  constructor
  · intro d hsep
    refine ⟨⟨expected_cols, [batchOutRow [d] d]⟩,
      ⟨expected_cols,
       [expected_cols.map (fun c =>
          (c, parseCell (serializeCell (getCell (batchOutRow [d] d) c)))),
        batchOutRow [d] d]⟩,
      expected_cols.map (fun c => serializeCell (getCell (batchOutRow [d] d) c)),
      batchAccumulate_none_spec [d] hsep, ?_, rfl, ?_⟩
    · rw [readCsv_roundtrip (batchOutRow [d] d)]
      rw [batchAccumulate_some_spec _ [d] hsep expected_nodup]
      show some (DF.mk expected_cols
          ([expected_cols.map (fun c =>
              (c, parseCell (serializeCell (getCell (batchOutRow [d] d) c))))].map
            (prevOutRow expected_cols) ++ [batchOutRow [d] d])) = _
      rw [List.map_singleton, prevOutRow_expected, alignRow_map_pair]
      rfl
    · show (expected_cols,
        [expected_cols.map (fun c => serializeCell
            (getCell (expected_cols.map (fun x =>
              (x, parseCell (serializeCell (getCell (batchOutRow [d] d) x))))) c)),
         expected_cols.map (fun c => serializeCell (getCell (batchOutRow [d] d) c))]) = _
      refine congrArg (Prod.mk expected_cols) ?_
      refine congrArg₂ List.cons ?_ rfl
      refine List.map_congr_left ?_
      intro c hc
      rw [getCell_map_pair _ c hc, roundCell]
  · intro stem crows
    refine ⟨⟨expected_cols, [alignRow (liftRow (planRow stem crows))]⟩,
      ⟨expected_cols,
       [expected_cols.map (fun c =>
          (c, parseCell (serializeCell (getCell (alignRow (liftRow (planRow stem crows))) c)))),
        alignRow (liftRow (planRow stem crows))]⟩,
      expected_cols.map (fun c =>
        serializeCell (getCell (alignRow (liftRow (planRow stem crows))) c)),
      captureAccumulate_none_spec _ (planRow_keys stem crows), ?_, rfl, ?_⟩
    · rw [readCsv_roundtrip (alignRow (liftRow (planRow stem crows)))]
      rw [captureAccumulate_some_spec _ _ (planRow_keys stem crows) expected_nodup]
      show some (DF.mk expected_cols
          ([expected_cols.map (fun c =>
              (c, parseCell (serializeCell
                (getCell (alignRow (liftRow (planRow stem crows))) c))))].map alignRow
            ++ [alignRow (liftRow (planRow stem crows))])) = _
      rw [List.map_singleton, alignRow_map_pair]
      rfl
    · show (expected_cols,
        [expected_cols.map (fun c => serializeCell
            (getCell (expected_cols.map (fun x =>
              (x, parseCell (serializeCell
                (getCell (alignRow (liftRow (planRow stem crows))) x))))) c)),
         expected_cols.map (fun c =>
            serializeCell (getCell (alignRow (liftRow (planRow stem crows))) c))]) = _
      refine congrArg (Prod.mk expected_cols) ?_
      refine congrArg₂ List.cons ?_ rfl
      refine List.map_congr_left ?_
      intro c hc
      rw [getCell_map_pair _ c hc, roundCell]

/-- Witness for C2 at a concrete new row holding only `alto`. -/
theorem claim_C2_witness :
    ∃ t1 t2 sr, batchAccumulate none [[("alto", "9")]] = some t1 ∧
      batchAccumulate (some (readCsv (serializeDF t1))) [[("alto", "9")]] = some t2 ∧
      serializeDF t1 = (expected_cols, [sr]) ∧
      serializeDF t2 = (expected_cols, [sr, sr]) := by
  obtain ⟨hb, _⟩ := claim_C2_append_only
  exact hb [("alto", "9")] (by decide)

/-! ### Dict updates: lookup after `d[k] = v`, and after a fold of updates -/

theorem lookup_map_update_self {α : Type} (d : List (String × α)) (k : String) (v : α)
    (h : ∃ p ∈ d, p.1 = k) :
    (d.map (fun p => if p.1 = k then (k, v) else p)).lookup k = some v := by
  induction d with
  | nil => obtain ⟨p, hp, _⟩ := h; cases hp
  | cons p tl ih =>
    by_cases hp : p.1 = k
    · rw [List.map_cons, if_pos hp]
      simp [List.lookup]
    · rw [List.map_cons, if_neg hp]
      have hb : (k == p.1) = false := beq_eq_false_iff_ne.mpr (fun hh => hp hh.symm)
      rw [List.lookup, hb]
      refine ih ?_
      obtain ⟨q, hq, hqk⟩ := h
      rcases List.mem_cons.mp hq with h1 | h1
      · exact absurd (h1 ▸ hqk) hp
      · exact ⟨q, h1, hqk⟩

theorem lookup_map_update_ne {α : Type} (d : List (String × α)) (k : String) (v : α)
    (a : String) (ha : a ≠ k) :
    (d.map (fun p => if p.1 = k then (k, v) else p)).lookup a = d.lookup a := by
  induction d with
  | nil => rfl
  | cons p tl ih =>
    by_cases hp : p.1 = k
    · rw [List.map_cons, if_pos hp]
      have hb1 : (a == k) = false := beq_eq_false_iff_ne.mpr ha
      have hb2 : (a == p.1) = false := beq_eq_false_iff_ne.mpr (hp ▸ ha)
      rw [List.lookup, hb1, List.lookup, hb2]
      exact ih
    · rw [List.map_cons, if_neg hp]
      by_cases hap : a = p.1
      · rw [List.lookup, List.lookup, beq_iff_eq.mpr hap]
      · have hb : (a == p.1) = false := beq_eq_false_iff_ne.mpr hap
        rw [List.lookup, hb, List.lookup, hb]
        exact ih

theorem lookup_dictSet {α : Type} (d : List (String × α)) (k : String) (v : α)
    (a : String) :
    (dictSet d k v).lookup a = if a = k then some v else d.lookup a := by
  unfold dictSet
  by_cases hany : d.any (fun p => p.1 = k) = true
  · rw [if_pos hany]
    obtain ⟨p, hp, hpd⟩ := List.any_eq_true.mp hany
    by_cases ha : a = k
    · rw [if_pos ha, ha]
      exact lookup_map_update_self d k v ⟨p, hp, of_decide_eq_true hpd⟩
    · rw [if_neg ha]
      exact lookup_map_update_ne d k v a ha
  · rw [if_neg hany]
    have hnone : d.lookup k = none := by
      refine lookup_eq_none_of_forall d k ?_
      intro p hp hpk
      exact hany (List.any_eq_true.mpr ⟨p, hp, decide_eq_true hpk⟩)
    by_cases ha : a = k
    · rw [if_pos ha, ha, List.lookup_append, hnone]
      simp [List.lookup]
    · rw [if_neg ha, List.lookup_append]
      have h2 : ([(k, v)] : List (String × α)).lookup a = none := by
        have hb : (a == k) = false := beq_eq_false_iff_ne.mpr ha
        simp [List.lookup, hb]
      rw [h2, Option.or_none]

theorem lookup_foldl_dictSet {α β : Type} (key : β → String) (val : β → α) :
    ∀ (l : List β) (d : List (String × α)) (k : String),
      (l.foldl (fun d0 b => dictSet d0 (key b) (val b)) d).lookup k =
        match (l.filter (fun b => key b == k)).getLast? with
        | some b => some (val b)
        | none => d.lookup k := by
  intro l
  induction l with
  | nil => intro d k; rfl
  | cons b l ih =>
    intro d k
    rw [List.foldl_cons, ih (dictSet d (key b) (val b)) k]
    rw [List.filter_cons]
    by_cases hb : (key b == k) = true
    · rw [if_pos hb]
      rcases hfl : l.filter (fun x => key x == k) with _ | ⟨x, xs⟩
      · show (dictSet d (key b) (val b)).lookup k = _
        rw [lookup_dictSet d (key b) (val b) k]
        rw [if_pos (beq_iff_eq.mp hb).symm]
        rfl
      · rw [List.getLast?_cons_cons]
        rw [List.getLast?_eq_getLast_of_ne_nil (List.cons_ne_nil x xs)]
    · rw [if_neg hb]
      rcases hfl : l.filter (fun x => key x == k) with _ | ⟨x, xs⟩
      · show (dictSet d (key b) (val b)).lookup k = d.lookup k
        rw [lookup_dictSet d (key b) (val b) k]
        rw [if_neg (fun hh => hb (beq_iff_eq.mpr hh.symm))]
      · rfl

/-- Claim C9: the template built by the session
(`capture_pdf.py` line 156) maps each label to the rectangle of the latest
capture row carrying that label (a dict comprehension: later rows
overwrite earlier ones), while `on_select` only ever appends to the
session's capture-row sequence, so every row — including overwritten
ones — remains in it. -/
theorem claim_C9_template_last_wins :
    (∀ (rows : List CaptureRow) (l : String),
        (templateFromRows rows).lookup l
          = ((rows.filter (fun r => r.etiqueta == l)).getLast?).map
              (fun r => [r.x0, r.y0, r.x1, r.y1])) ∧
    (∀ (scale : ℚ) (getT : Rect → String) (rows : List CaptureRow)
        (sel : Selection) (labelInput : String),
        ∃ suffix, onSelect scale getT rows sel labelInput = rows ++ suffix) := by
  constructor
  · intro rows l
    unfold templateFromRows
    rw [lookup_foldl_dictSet (fun r : CaptureRow => r.etiqueta)
      (fun r => [r.x0, r.y0, r.x1, r.y1]) rows [] l]
    rcases (rows.filter (fun r => r.etiqueta == l)).getLast? with _ | r
    · rfl
    · rfl
  · intro scale getT rows sel labelInput
    simp only [onSelect]
    by_cases h : pyStripStr labelInput = ""
    · rw [if_pos h]
      exact ⟨[], (List.append_nil rows).symm⟩
    · rw [if_neg h]
      exact ⟨_, rfl⟩

/-! ### Template loading and batch extraction (`extract_with_template.py`) -/

/-- An opened PDF page handle of the external engine. The engine itself is
always passed as a function argument (`getT`: the text the engine returns
for a clip rectangle; `openD`: opening a document, `none` when the file is
corrupt or unreadable and `fitz.open` raises). -/
structure Page where
  pid : Nat
deriving DecidableEq, Repr

/-- `load_template` (lines 20-22): after the external JSON parse, it runs
`{k: tuple(v) for k, v in data.items()}`, converting each value sequence to
a tuple with no arity or numeric validation whatsoever; it cannot fail on a
keyed structure with sequence values, and no `MalformedTemplateError` (nor
any other template validation error) exists anywhere in the code. -/
def load_template (data : List (String × List ℚ)) :
    Except String (List (String × List ℚ)) :=
  Except.ok (data.map (fun kv => (kv.1, kv.2)))

/-- `extract_single` (lines 25-32): starts the result dict with
`{"nombre": pdf_path.stem}`, then for each template entry overwrites
`result[key]` with the normalized clip text. -/
def extract_single (getT : Page → Rect → String) (page : Page) (stem : String)
    (rectMap : List (String × Rect)) : PyDict :=
  rectMap.foldl
    (fun res kr => dictSet res kr.1 (pyNormalize (getT page kr.2)))
    [("nombre", stem)]

/-- The dot character, for suffix stripping. -/
def dotChar : Char := Char.ofNat 46

/-- `pathlib.Path(name).stem`: the file name without its final suffix;
a name with no dot, a bare leading-dot name, or a trailing dot keeps the
whole name. -/
def stemOf (name : String) : String :=
  let r := name.toList.reverse
  let ext := r.takeWhile (fun c => !(c == dotChar))
  let rest := r.dropWhile (fun c => !(c == dotChar))
  if r.contains dotChar then
    if (rest.drop 1).isEmpty || ext.isEmpty then name
    else ((rest.drop 1).reverse).asString
  else name

/-- Lexicographic code-point comparison on character lists, as Python
compares strings. -/
def charListLe : List Char → List Char → Bool
  | [], _ => true
  | _ :: _, [] => false
  | a :: as, b :: bs =>
    if a.toNat < b.toNat then true
    else if b.toNat < a.toNat then false
    else charListLe as bs

/-- Python's string order. -/
def pyStrLe (a b : String) : Bool := charListLe a.toList b.toList

/-- `sorted(...)` over the matching file names (line 48). -/
def sortedFiles (files : List String) : List String :=
  List.insertionSort (fun a b : String => pyStrLe a b = true) files

/-- The batch loop (lines 44-49): a `for` over the sorted matches appending
`extract_single` results; an exception from any single document propagates
and aborts the whole loop, modelled by `none`. -/
def mapOpt {α β : Type} : List α → (α → Option β) → Option (List β)
  | [], _ => some []
  | a :: as, f =>
    match f a with
    | none => none
    | some b => (mapOpt as f).map (fun bs => b :: bs)

/-- Row collection of batch mode over a directory listing `files`. -/
def batchRows (openD : String → Option Page) (getT : Page → Rect → String)
    (files : List String) (rectMap : List (String × Rect)) : Option (List PyDict) :=
  mapOpt (sortedFiles files)
    (fun f => (openD f).map (fun page => extract_single getT page (stemOf f) rectMap))

/-- A concrete engine whose document `bad.pdf` is unreadable. -/
def testOpen : String → Option Page := fun f => if f = "bad.pdf" then none else some ⟨0⟩

/-- A concrete engine opening every document. -/
def testOpenAll : String → Option Page := fun _ => some ⟨0⟩

/-- A concrete extractor returning the same text for every clip. -/
def testGetT : Page → Rect → String := fun _ _ => "texto"

/-- A concrete extractor returning `X` for every clip. -/
def testGetX : Page → Rect → String := fun _ _ => "X"

/-- A concrete template rectangle. -/
def rectT : Rect := ⟨0, 0, 5, 5⟩

/-- Claim C3 counterexample: loading a keyed structure whose value has
length 3 succeeds and returns the 3-tuple unchanged — no
`MalformedTemplateError` is raised, contrary to the claim. -/
theorem claim_C3_counterexample :
    load_template [("a", [1, 2, 3])] = Except.ok [("a", [1, 2, 3])] := rfl

/-- Claim C3 as amended: `load_template` performs no arity validation at
all; every keyed structure with numeric-sequence values — including values
of length 3 — loads successfully and unchanged, and the code defines no
`MalformedTemplateError`. -/
theorem claim_C3_amended (data : List (String × List ℚ)) :
    load_template data = Except.ok data :=
  congrArg Except.ok (List.map_id data)

theorem mapOpt_eq_none {α β : Type} (l : List α) (g : α → Option β)
    (h : ∃ a ∈ l, g a = none) : mapOpt l g = none := by
  induction l with
  | nil => obtain ⟨a, ha, _⟩ := h; cases ha
  | cons a as ih =>
    obtain ⟨x, hx, hgx⟩ := h
    rcases hga : g a with _ | b
    · show (match g a with
        | none => none
        | some b => (mapOpt as g).map (fun bs => b :: bs)) = none
      rw [hga]
    · show (match g a with
        | none => none
        | some b => (mapOpt as g).map (fun bs => b :: bs)) = none
      rw [hga]
      rcases List.mem_cons.mp hx with h1 | h1
      · rw [h1] at hgx
        rw [hgx] at hga
        cases hga
      · rw [ih ⟨x, h1, hgx⟩]
        rfl

/-- Claim C4 counterexample: with documents `a.pdf`, `bad.pdf`, `c.pdf`
where only `bad.pdf` is unreadable, the batch produces no table at all —
the uncaught exception aborts the run — rather than one row for each of
the two readable documents. -/
theorem claim_C4_counterexample :
    batchRows testOpen testGetT ["a.pdf", "bad.pdf", "c.pdf"] [] = none ∧
      ∀ rows : List PyDict,
        batchRows testOpen testGetT ["a.pdf", "bad.pdf", "c.pdf"] [] ≠ some rows := by
  refine ⟨by decide, ?_⟩
  intro rows h
  rw [show batchRows testOpen testGetT ["a.pdf", "bad.pdf", "c.pdf"] [] = none
    from by decide] at h
  cases h

/-- Claim C4 as amended: in batch mode there is no per-document error
handling (`extract_single` is called bare inside the loop, lines 44-49), so
one unreadable document makes the whole run fail: no row is produced for
any document, not even the readable ones. -/
theorem claim_C4_amended (openD : String → Option Page) (getT : Page → Rect → String)
    (files : List String) (rectMap : List (String × Rect))
    (h : ∃ f ∈ files, openD f = none) :
    batchRows openD getT files rectMap = none := by
  obtain ⟨f, hf, hnone⟩ := h
  refine mapOpt_eq_none _ _ ⟨f, ?_, ?_⟩
  · exact (List.perm_insertionSort (fun a b : String => pyStrLe a b = true)
      files).mem_iff.mpr hf
  · rw [hnone]
    rfl

/-- Witness for C4 at a concrete unreadable document. -/
theorem claim_C4_witness :
    (∃ f ∈ ["a.pdf", "bad.pdf"], testOpen f = none) ∧
      batchRows testOpen testGetT ["a.pdf", "bad.pdf"] [] = none := by
  have hex : ∃ f ∈ ["a.pdf", "bad.pdf"], testOpen f = none :=
    ⟨"bad.pdf", by decide, by decide⟩
  exact ⟨hex, claim_C4_amended testOpen testGetT _ _ hex⟩

/-! ### Order facts for the file sort -/

theorem charListLe_total : ∀ (a b : List Char),
    charListLe a b = true ∨ charListLe b a = true := by
  intro a
  induction a with
  | nil => intro b; left; rfl
  | cons x as ih =>
    intro b
    rcases b with _ | ⟨y, bs⟩
    · right; rfl
    · by_cases h1 : x.toNat < y.toNat
      · left
        show (if x.toNat < y.toNat then true
            else if y.toNat < x.toNat then false else charListLe as bs) = true
        rw [if_pos h1]
      · by_cases h2 : y.toNat < x.toNat
        · right
          show (if y.toNat < x.toNat then true
              else if x.toNat < y.toNat then false else charListLe bs as) = true
          rw [if_pos h2]
        · rcases ih bs with h | h
          · left
            show (if x.toNat < y.toNat then true
                else if y.toNat < x.toNat then false else charListLe as bs) = true
            rw [if_neg h1, if_neg h2]
            exact h
          · right
            show (if y.toNat < x.toNat then true
                else if x.toNat < y.toNat then false else charListLe bs as) = true
            rw [if_neg h2, if_neg h1]
            exact h

theorem charListLe_trans : ∀ (a b c : List Char),
    charListLe a b = true → charListLe b c = true → charListLe a c = true := by
  intro a
  induction a with
  | nil => intro b c _ _; rfl
  | cons x as ih =>
    intro b c h1 h2
    rcases b with _ | ⟨y, bs⟩
    · exact Bool.noConfusion h1
    · rcases c with _ | ⟨z, cs⟩
      · exact Bool.noConfusion h2
      · have h1e : charListLe (x :: as) (y :: bs)
            = (if x.toNat < y.toNat then true
              else if y.toNat < x.toNat then false else charListLe as bs) := rfl
        have h2e : charListLe (y :: bs) (z :: cs)
            = (if y.toNat < z.toNat then true
              else if z.toNat < y.toNat then false else charListLe bs cs) := rfl
        have hgoal : charListLe (x :: as) (z :: cs)
            = (if x.toNat < z.toNat then true
              else if z.toNat < x.toNat then false else charListLe as cs) := rfl
        rw [h1e] at h1
        rw [h2e] at h2
        rw [hgoal]
        by_cases hxy : x.toNat < y.toNat
        · by_cases hyz : y.toNat < z.toNat
          · rw [if_pos (by omega)]
          · by_cases hzy : z.toNat < y.toNat
            · rw [if_neg hyz, if_pos hzy] at h2
              exact Bool.noConfusion h2
            · rw [if_pos (by omega)]
        · by_cases hyx : y.toNat < x.toNat
          · rw [if_neg hxy, if_pos hyx] at h1
            exact Bool.noConfusion h1
          · by_cases hyz : y.toNat < z.toNat
            · rw [if_pos (by omega)]
            · by_cases hzy : z.toNat < y.toNat
              · rw [if_neg hyz, if_pos hzy] at h2
                exact Bool.noConfusion h2
              · rw [if_neg hxy, if_neg hyx] at h1
                rw [if_neg hyz, if_neg hzy] at h2
                rw [if_neg (by omega), if_neg (by omega)]
                exact ih bs cs h1 h2

instance : IsTotal String (fun a b => pyStrLe a b = true) :=
  ⟨fun a b => charListLe_total a.toList b.toList⟩

instance : IsTrans String (fun a b => pyStrLe a b = true) :=
  ⟨fun a b c => charListLe_trans a.toList b.toList c.toList⟩

theorem mapOpt_all_some {α β : Type} :
    ∀ (l : List α) (g : α → Option β), (∀ a ∈ l, (g a).isSome = true) →
      ∃ bs, mapOpt l g = some bs ∧ bs.length = l.length ∧
        ∀ (i : ℕ) (hb : i < bs.length) (hl : i < l.length),
          g (l.get ⟨i, hl⟩) = some (bs.get ⟨i, hb⟩) := by
  intro l
  induction l with
  | nil =>
    intro g _
    exact ⟨[], rfl, rfl, fun i hb _ => absurd hb (by simp)⟩
  | cons a as ih =>
    intro g h
    have ha : (g a).isSome = true := h a (List.mem_cons_self a as)
    rcases hga : g a with _ | b
    · rw [hga] at ha; cases ha
    · obtain ⟨bs, hbs, hlen, hget⟩ := ih g (fun x hx => h x (List.mem_cons_of_mem a hx))
      refine ⟨b :: bs, ?_, by simp [hlen], ?_⟩
      · show (match g a with
          | none => none
          | some b => (mapOpt as g).map (fun bs => b :: bs)) = some (b :: bs)
        rw [hga, hbs]
        rfl
      · intro i hb hl
        rcases i with _ | i
        · exact hga
        · exact hget i (by simpa using hb) (by simpa using hl)

theorem extract_single_nombre_default (getT : Page → Rect → String) (page : Page)
    (stem : String) (rectMap : List (String × Rect))
    (hno : ∀ kr ∈ rectMap, kr.1 ≠ "nombre") :
    (extract_single getT page stem rectMap).lookup "nombre" = some stem := by
  unfold extract_single
  rw [lookup_foldl_dictSet (fun kr : String × Rect => kr.1)
    (fun kr => pyNormalize (getT page kr.2)) rectMap [("nombre", stem)] "nombre"]
  rw [List.filter_eq_nil_iff.mpr
    (fun kr hkr hbeq => (hno kr hkr) (beq_iff_eq.mp hbeq))]
  simp [List.lookup]

/-- Claim C8 counterexample: with a template that contains the label
`nombre`, the single processed document's row does not carry the filename
stem: the extracted text `X` overwrites it, so the document-identity value
of the row is not the filename without extension. -/
theorem claim_C8_counterexample :
    batchRows testOpenAll testGetX ["plan.pdf"] [("nombre", rectT)]
        = some [[("nombre", "X")]] ∧
      stemOf "plan.pdf" = "plan" ∧ ("X" : String) ≠ "plan" :=
  ⟨by decide, by decide, by decide⟩

/-- Claim C8 as amended: in batch mode over a directory listing, provided
the template has pairwise-distinct labels none of which is `nombre`, every
document is processed in sorted filename order, each produces exactly one
row, and that row's document-identity entry is the filename without its
extension. (Without the `nombre` proviso the identity is overwritten —
see the counterexample and claim C10.) -/
theorem claim_C8_amended (openD : String → Option Page) (getT : Page → Rect → String)
    (files : List String) (rectMap : List (String × Rect))
    (hno : ∀ kr ∈ rectMap, kr.1 ≠ "nombre")
    (hopen : ∀ f ∈ files, (openD f).isSome = true) :
    ∃ rows, batchRows openD getT files rectMap = some rows ∧
      rows.length = files.length ∧
      List.Perm (sortedFiles files) files ∧
      List.Sorted (fun a b : String => pyStrLe a b = true) (sortedFiles files) ∧
      ∀ (i : ℕ) (hr : i < rows.length) (hs : i < (sortedFiles files).length),
        ∃ page, openD ((sortedFiles files).get ⟨i, hs⟩) = some page ∧
          rows.get ⟨i, hr⟩
            = extract_single getT page (stemOf ((sortedFiles files).get ⟨i, hs⟩)) rectMap ∧
          (rows.get ⟨i, hr⟩).lookup "nombre"
            = some (stemOf ((sortedFiles files).get ⟨i, hs⟩)) := by
  have hopen2 : ∀ f ∈ sortedFiles files,
      ((openD f).map (fun page => extract_single getT page (stemOf f) rectMap)).isSome
        = true := by
    intro f hf
    have hff : f ∈ files :=
      (List.perm_insertionSort (fun a b : String => pyStrLe a b = true) files).mem_iff.mp hf
    have hs := hopen f hff
    rcases hg : openD f with _ | pg
    · rw [hg] at hs; cases hs
    · rfl
  obtain ⟨rows, hrows, hlen, hget⟩ := mapOpt_all_some (sortedFiles files) _ hopen2
  refine ⟨rows, hrows, ?_,
    List.perm_insertionSort (fun a b : String => pyStrLe a b = true) files,
    List.sorted_insertionSort (fun a b : String => pyStrLe a b = true) files, ?_⟩
  · rw [hlen]
    exact (List.perm_insertionSort (fun a b : String => pyStrLe a b = true) files).length_eq
  · intro i hr hs
    have hgi := hget i hr hs
    rcases hg : openD ((sortedFiles files).get ⟨i, hs⟩) with _ | pg
    · rw [hg] at hgi
      cases hgi
    · rw [hg] at hgi
      have hval : extract_single getT pg (stemOf ((sortedFiles files).get ⟨i, hs⟩)) rectMap
          = rows.get ⟨i, hr⟩ := Option.some.inj hgi
      refine ⟨pg, rfl, hval.symm, ?_⟩
      rw [← hval]
      exact extract_single_nombre_default getT pg _ rectMap hno

/-- Witness for C8 at two readable documents and a `nombre`-free template. -/
theorem claim_C8_witness :
    ∃ rows, batchRows testOpenAll testGetT ["b.pdf", "a.pdf"] [("alto", rectT)]
        = some rows ∧ rows.length = 2 := by
  obtain ⟨rows, h1, h2, _, _, _⟩ := claim_C8_amended testOpenAll testGetT
    ["b.pdf", "a.pdf"] [("alto", rectT)] (by decide) (fun f _ => rfl)
  exact ⟨rows, h1, h2⟩

/-! ### The `nombre` overwrite (claim C10) -/

theorem dictSet_cons_head {α : Type} (k0 : String) (v0 : α) (tl : List (String × α))
    (k : String) (v : α) :
    ∃ w rest, dictSet ((k0, v0) :: tl) k v = (k0, w) :: rest := by
  unfold dictSet
  by_cases hany : ((k0, v0) :: tl).any (fun p => p.1 = k) = true
  · rw [if_pos hany, List.map_cons]
    by_cases hk : k0 = k
    · subst hk
      refine ⟨v, tl.map (fun p => if p.1 = k0 then (k0, v) else p), ?_⟩
      rw [show (if ((k0, v0) : String × α).1 = k0 then (k0, v) else (k0, v0)) = (k0, v)
        from if_pos rfl]
    · refine ⟨v0, tl.map (fun p => if p.1 = k then (k, v) else p), ?_⟩
      rw [show (if ((k0, v0) : String × α).1 = k then (k, v) else (k0, v0)) = (k0, v0)
        from if_neg hk]
  · rw [if_neg hany]
    exact ⟨v0, tl ++ [(k, v)], rfl⟩

theorem foldl_dictSet_head {α β : Type} (key : β → String) (val : β → α) :
    ∀ (l : List β) (k0 : String) (v0 : α) (tl : List (String × α)),
      ∃ w rest, l.foldl (fun d b => dictSet d (key b) (val b)) ((k0, v0) :: tl)
          = (k0, w) :: rest := by
  intro l
  induction l with
  | nil => intro k0 v0 tl; exact ⟨v0, tl, rfl⟩
  | cons b l ih =>
    intro k0 v0 tl
    rw [List.foldl_cons]
    obtain ⟨w1, rest1, h1⟩ := dictSet_cons_head k0 v0 tl (key b) (val b)
    rw [h1]
    exact ih k0 w1 rest1

theorem filter_key_nodup_lookup {α : Type} :
    ∀ (l : List (String × α)) (k : String) (v : α),
      (dictKeys l).Nodup → l.lookup k = some v →
      l.filter (fun p => p.1 == k) = [(k, v)] := by
  intro l
  induction l with
  | nil => intro k v _ h; cases h
  | cons p tl ih =>
    intro k v hnd hlk
    by_cases hk : k = p.1
    · have hbeq : (k == p.1) = true := beq_iff_eq.mpr hk
      rw [List.lookup, hbeq] at hlk
      have hv : p.2 = v := Option.some.inj hlk
      rw [List.filter_cons, if_pos (beq_iff_eq.mpr hk.symm)]
      have htl : tl.filter (fun q => q.1 == k) = [] := by
        refine List.filter_eq_nil_iff.mpr ?_
        intro q hq hbq
        have hq1 : q.1 = p.1 := (beq_iff_eq.mp hbq).trans hk
        have hpk : p.1 ∈ dictKeys tl := List.mem_map.mpr ⟨q, hq, hq1⟩
        exact (List.nodup_cons.mp hnd).1 hpk
      rw [htl]
      rw [show p = (k, v) from Prod.ext hk.symm hv]
    · have hbeq : (k == p.1) = false := beq_eq_false_iff_ne.mpr hk
      rw [List.lookup, hbeq] at hlk
      rw [List.filter_cons,
        if_neg (fun hcon => hk (beq_iff_eq.mp hcon).symm)]
      exact ih k v (List.nodup_cons.mp hnd).2 hlk

/-- Claim C10: when the template contains the label `nombre`, the initial
`{"nombre": pdf_path.stem}` entry is overwritten by the text extracted from
that rectangle — the filename stem is lost — and consequently the
`nombre_plan` cell of the accumulated batch row holds that extracted text
instead of the document identity. -/
theorem claim_C10_nombre_overwritten (getT : Page → Rect → String) (page : Page)
    (stem : String) (rectMap : List (String × Rect)) (r : Rect)
    (hnd : (dictKeys rectMap).Nodup) (hr : rectMap.lookup "nombre" = some r) :
    ∃ rest, extract_single getT page stem rectMap
        = ("nombre", pyNormalize (getT page r)) :: rest ∧
      (extract_single getT page stem rectMap).lookup "nombre"
        = some (pyNormalize (getT page r)) ∧
      getCell (batchOutRow [extract_single getT page stem rectMap]
          (extract_single getT page stem rectMap)) "nombre_plan"
        = some (pyNormalize (getT page r)) := by
  have hlk : (extract_single getT page stem rectMap).lookup "nombre"
      = some (pyNormalize (getT page r)) := by
    unfold extract_single
    rw [lookup_foldl_dictSet (fun kr : String × Rect => kr.1)
      (fun kr => pyNormalize (getT page kr.2)) rectMap [("nombre", stem)] "nombre"]
    rw [filter_key_nodup_lookup rectMap "nombre" r hnd hr]
    rfl
  obtain ⟨w, rest, hhead⟩ := foldl_dictSet_head (fun kr : String × Rect => kr.1)
    (fun kr => pyNormalize (getT page kr.2)) rectMap "nombre" stem []
  have hhead2 : extract_single getT page stem rectMap = ("nombre", w) :: rest := hhead
  have hw : w = pyNormalize (getT page r) := by
    rw [hhead2] at hlk
    have hlk2 : ((("nombre", w) : String × String) :: rest).lookup "nombre" = some w := by
      simp [List.lookup]
    rw [hlk2] at hlk
    exact Option.some.inj hlk
  subst hw
  refine ⟨rest, hhead2, hlk, ?_⟩
  unfold batchOutRow
  rw [getCell_alignRow _ _ (show "nombre_plan" ∈ expected_cols by decide)]
  rw [hhead2]
  have hren : renRowD (("nombre", pyNormalize (getT page r)) :: rest)
      = ("nombre_plan", some (pyNormalize (getT page r))) :: renRowD rest := by
    unfold renRowD liftRow
    simp
  rw [hren, List.cons_append]
  simp [getCell, List.lookup]

/-- Witness for C10 at a concrete one-label template `nombre`. -/
theorem claim_C10_witness :
    ∃ rest, extract_single testGetX ⟨0⟩ "plan" [("nombre", rectT)]
        = ("nombre", pyNormalize (testGetX ⟨0⟩ rectT)) :: rest ∧
      (extract_single testGetX ⟨0⟩ "plan" [("nombre", rectT)]).lookup "nombre"
        = some (pyNormalize (testGetX ⟨0⟩ rectT)) := by
  obtain ⟨rest, h1, h2, _⟩ := claim_C10_nombre_overwritten testGetX ⟨0⟩ "plan"
    [("nombre", rectT)] rectT (by decide) (by decide)
  exact ⟨rest, h1, h2⟩

end PdfScrapper
